import Mathlib

/-!
Shallow embedding of the retrieval-and-orchestration core of the
commerce-assistance repository (src/app/services/vector_store.py,
tool.py, context.py, agent_service.py), together with theorems that
settle the spec claims about it.

Floating-point numbers of the source are idealised as real numbers;
machine vectors (`np.ndarray`) become `List ℝ`.
-/

namespace VectorStore

/-- Sum of squares of the entries of a vector (`np.linalg.norm(v)**2`). -/
def sumSq (v : List ℝ) : ℝ := (v.map (fun x => x ^ 2)).sum

/-- Euclidean norm of a vector: `np.linalg.norm(v)`. -/
noncomputable def l2norm (v : List ℝ) : ℝ := Real.sqrt (sumSq v)

/-- Embeds `_normalize` of `vector_store.py`:
`n = np.linalg.norm(v); return v / n if n > 0 else v`. -/
noncomputable def normalize (v : List ℝ) : List ℝ :=
  let n := l2norm v
  if 0 < n then v.map (fun x => x / n) else v

/-- Inner product of two vectors (faiss `IndexFlatIP` scoring). -/
def dot (a b : List ℝ) : ℝ := (List.zipWith (fun x y => x * y) a b).sum

lemma sumSq_nonneg (v : List ℝ) : 0 ≤ sumSq v := by
  unfold sumSq
  apply List.sum_nonneg
  intro x hx
  obtain ⟨y, _, rfl⟩ := List.mem_map.mp hx
  exact sq_nonneg y

lemma sumSq_eq_zero_of_all_zero {v : List ℝ} (h : ∀ x ∈ v, x = 0) :
    sumSq v = 0 := by
  unfold sumSq
  rw [List.sum_eq_zero]
  intro x hx
  obtain ⟨y, hy, rfl⟩ := List.mem_map.mp hx
  rw [h y hy]; ring

lemma sumSq_pos_of_ne_zero {v : List ℝ} (h : ¬ ∀ x ∈ v, x = 0) :
    0 < sumSq v := by
  push_neg at h
  obtain ⟨x, hx, hxne⟩ := h
  have hxsq : 0 < x ^ 2 := by
    refine lt_of_le_of_ne (sq_nonneg x) (fun heq => hxne ?_)
    exact pow_eq_zero_iff (n := 2) (by norm_num) |>.mp heq.symm
  have hle : x ^ 2 ≤ sumSq v := by
    apply List.single_le_sum
    · intro y hy
      obtain ⟨z, _, rfl⟩ := List.mem_map.mp hy
      exact sq_nonneg z
    · exact List.mem_map_of_mem _ hx
  linarith

lemma sumSq_map_div (v : List ℝ) (n : ℝ) :
    sumSq (v.map (fun x => x / n)) = sumSq v / n ^ 2 := by
  unfold sumSq
  induction v with
  | nil => simp
  | cons a t ih =>
    simp only [List.map_cons, List.sum_cons] at *
    rw [ih, div_pow, div_add_div_same]

/-- The normalized vector of a nonzero vector has unit norm. -/
lemma sumSq_normalize_of_ne_zero {v : List ℝ} (h : ¬ ∀ x ∈ v, x = 0) :
    sumSq (normalize v) = 1 := by
  have hpos : 0 < sumSq v := sumSq_pos_of_ne_zero h
  have hn : 0 < l2norm v := Real.sqrt_pos.mpr hpos
  unfold normalize
  simp only [if_pos hn]
  rw [sumSq_map_div, l2norm, Real.sq_sqrt (le_of_lt hpos)]
  field_simp

lemma normalize_of_all_zero {v : List ℝ} (h : ∀ x ∈ v, x = 0) :
    normalize v = v := by
  have hz : sumSq v = 0 := sumSq_eq_zero_of_all_zero h
  unfold normalize l2norm
  rw [hz, Real.sqrt_zero]
  simp

/-- Norm-squared bound for every output of `normalize`. -/
lemma sumSq_normalize_le_one (v : List ℝ) : sumSq (normalize v) ≤ 1 := by
  by_cases h : ∀ x ∈ v, x = 0
  · rw [normalize_of_all_zero h, sumSq_eq_zero_of_all_zero h]; norm_num
  · rw [sumSq_normalize_of_ne_zero h]

lemma sumSq_cons (x : ℝ) (t : List ℝ) : sumSq (x :: t) = x ^ 2 + sumSq t := by
  simp [sumSq]

/-- Cauchy–Schwarz for the list inner product (lists may differ in
length; the shorter one acts as if zero-padded). -/
lemma dot_le_sqrt_mul_sqrt (a b : List ℝ) :
    dot a b ≤ Real.sqrt (sumSq a) * Real.sqrt (sumSq b) := by
  induction a generalizing b with
  | nil =>
    rw [dot]
    simp
    positivity
  | cons x t ih =>
    cases b with
    | nil =>
      rw [dot]
      simp
      positivity
    | cons y s =>
      have hP : 0 ≤ Real.sqrt (sumSq t) := Real.sqrt_nonneg _
      have hQ : 0 ≤ Real.sqrt (sumSq s) := Real.sqrt_nonneg _
      have hP2 : Real.sqrt (sumSq t) ^ 2 = sumSq t :=
        Real.sq_sqrt (sumSq_nonneg t)
      have hQ2 : Real.sqrt (sumSq s) ^ 2 = sumSq s :=
        Real.sq_sqrt (sumSq_nonneg s)
      have hdot : dot (x :: t) (y :: s) = x * y + dot t s := by
        simp [dot]
      rw [hdot, sumSq_cons, sumSq_cons]
      set P := Real.sqrt (sumSq t)
      set Q := Real.sqrt (sumSq s)
      have step : x * y + P * Q ≤
          Real.sqrt (x ^ 2 + P ^ 2) * Real.sqrt (y ^ 2 + Q ^ 2) := by
        have h2 : (x * y + P * Q) ^ 2 ≤
            (x ^ 2 + P ^ 2) * (y ^ 2 + Q ^ 2) := by
          nlinarith [sq_nonneg (x * Q - P * y)]
        calc x * y + P * Q ≤ |x * y + P * Q| := le_abs_self _
          _ = Real.sqrt ((x * y + P * Q) ^ 2) :=
              (Real.sqrt_sq_eq_abs _).symm
          _ ≤ Real.sqrt ((x ^ 2 + P ^ 2) * (y ^ 2 + Q ^ 2)) :=
              Real.sqrt_le_sqrt h2
          _ = Real.sqrt (x ^ 2 + P ^ 2) * Real.sqrt (y ^ 2 + Q ^ 2) :=
              Real.sqrt_mul (by positivity) _
      have htail : dot t s ≤ P * Q := ih s
      calc x * y + dot t s ≤ x * y + P * Q := by linarith
        _ ≤ Real.sqrt (x ^ 2 + sumSq t) * Real.sqrt (y ^ 2 + sumSq s) := by
          rw [hP2, hQ2] at step
          exact step

/-- The inner product of two vectors of norm at most one is at most 1. -/
lemma dot_le_one_of_sumSq_le_one {a b : List ℝ} (ha : sumSq a ≤ 1)
    (hb : sumSq b ≤ 1) : dot a b ≤ 1 := by
  have h := dot_le_sqrt_mul_sqrt a b
  have ha' : Real.sqrt (sumSq a) ≤ 1 := by
    rw [show (1 : ℝ) = Real.sqrt 1 by rw [Real.sqrt_one]]
    exact Real.sqrt_le_sqrt ha
  have hb' : Real.sqrt (sumSq b) ≤ 1 := by
    rw [show (1 : ℝ) = Real.sqrt 1 by rw [Real.sqrt_one]]
    exact Real.sqrt_le_sqrt hb
  have := mul_le_one₀ ha' (Real.sqrt_nonneg _) hb'
  linarith

/-- Model of a `products` table row (src/app/models/product.py); the
columns the retrieval core reads.  Nullable columns are `Option`s. -/
structure Product where
  id : Int
  name : Option String
  description : Option String
  price : Option ℝ
  category : Option String
  brand : Option String

/-- The product store: the rows `db.query(Product).all()` returns, in
table order. -/
abbrev DB := List Product

/-- A faiss `IndexFlatIP`: its dimension and the vectors added to it, in
insertion order. -/
structure Index where
  dim : ℕ
  vecs : List (List ℝ)

/-- `index.ntotal`: the number of vectors stored in the index. -/
def Index.size (i : Index) : ℕ := i.vecs.length

/-- The persisted artifacts: the binary index file plus the
`{ids, dim}` JSON sidecar. -/
structure Snapshot where
  index : Index
  ids : List Int

/-- State of the snapshot storage location (`data/faiss/`):
both files present and parseable, present but unreadable/corrupt, or
(at least one) missing. -/
inductive Storage
  | absent
  | corrupt
  | snapshot (s : Snapshot)

/-- Failures `build_index` can raise:
`RuntimeError("No embeddings generated for products")`, or the
`ValueError` `np.vstack` raises on vectors of unequal width. -/
inductive BuildError
  | emptyCorpus
  | dimMismatch
deriving DecidableEq

/-- Failures of the query paths: a propagated build failure, or the
crash that follows when the query text yields no embedding. -/
inductive QueryError
  | build (e : BuildError)
  | embedFailed
deriving DecidableEq

/-- Python `str.lower()`, character by character. -/
def pyLower (s : String) : String := ⟨s.data.map Char.toLower⟩

/-- Python `str.strip()`: drop whitespace from both ends. -/
def pyStrip (s : String) : String :=
  ⟨((s.data.dropWhile Char.isWhitespace).reverse.dropWhile
      Char.isWhitespace).reverse⟩

/-- The cache key `_get_embedding` computes: `text.strip().lower()`. -/
def cacheKey (text : String) : String := pyLower (pyStrip text)

/-- The failure `_get_embedding` raises when no embedding source is
configured: `RuntimeError("OPENAI_API_KEY not configured; ...")`. -/
inductive EmbedError
  | configuration
deriving DecidableEq

/-- Embeds `_get_embedding` of `vector_store.py`.  `apiKey` models the
`OPENAI_API_KEY` environment variable (`none` = unset or empty), `api`
the OpenAI embeddings endpoint, `cache` the module-level `_EMBED_CACHE`
dict (an association list where the first binding wins).  The result
carries the vector, the cache afterwards, and whether an external call
was made. -/
def get_embedding (apiKey : Option String) (api : String → List ℝ)
    (cache : List (String × List ℝ)) (text : String) :
    Except EmbedError (List ℝ × List (String × List ℝ) × Bool) :=
  let key := cacheKey text
  match cache.lookup key with
  | some v => .ok (v, cache, false)
  | none =>
    match apiKey with
    | none => .error .configuration
    | some _ => .ok (api text, (key, api text) :: cache, true)

/-- The text embedded for a product:
`(p.description or "") + " " + (p.name or "")`. -/
def productText (p : Product) : String :=
  p.description.getD "" ++ " " ++ p.name.getD ""

/-- Embeds `build_index` of `vector_store.py`.  The embedding provider is
passed as the oracle `emb`; `none` models an embedding that could not be
computed (the loop's `if emb is None: continue` branch).  The returned
`Storage` is the state of the snapshot files afterwards; an error result
leaves them untouched (the exception is raised before any write). -/
noncomputable def build_index (emb : String → Option (List ℝ)) (db : DB)
    (st : Storage) : Except BuildError (Index × List Int) × Storage :=
  let pairs := db.filterMap fun p =>
    (emb (productText p)).map fun e => (p.id, normalize e)
  let ids := pairs.map Prod.fst
  let vecs := pairs.map Prod.snd
  match vecs with
  | [] => (.error .emptyCorpus, st)
  | v0 :: _ =>
    let d := v0.length
    if vecs.all fun v => v.length = d then
      let idx : Index := ⟨d, vecs⟩
      (.ok (idx, ids), .snapshot ⟨idx, ids⟩)
    else
      (.error .dimMismatch, st)

/-- Embeds `load_index` of `vector_store.py`: `none` when either file is
missing or reading/parsing raised (caught and converted to absent). -/
def load_index : Storage → Option (Index × List Int)
  | .absent => none
  | .corrupt => none
  | .snapshot s => some (s.index, s.ids)

/-- The shared prelude of `query` and `query_with_scores`:
`index, ids = load_index(); if index is None or not ids:
index, ids = build_index(db)`. -/
noncomputable def load_or_build (emb : String → Option (List ℝ)) (db : DB)
    (st : Storage) : Except BuildError (Index × List Int) × Storage :=
  match load_index st with
  | some (idx, ids) =>
    if ids = [] then build_index emb db st else (.ok (idx, ids), st)
  | none => build_index emb db st

/-- Embeds `index.search(qn, k)` of faiss for a flat inner-product index:
the `k` best (position, score) rows in descending score order, padded
with position `-1` when `k` exceeds the index size. -/
noncomputable def searchPairs (vecs : List (List ℝ)) (q : List ℝ) (k : ℕ) :
    List (Int × ℝ) :=
  let scored := vecs.enum.map fun pr => ((pr.1 : Int), dot q pr.2)
  let sorted := List.insertionSort (fun a b : Int × ℝ => b.2 ≤ a.2) scored
  sorted.take k ++ List.replicate (k - vecs.length) ((-1 : Int), 0)

/-- Embeds `query` of `vector_store.py`. -/
noncomputable def query (emb : String → Option (List ℝ)) (db : DB)
    (st : Storage) (query_text : String) (top_k : ℕ) :
    Except QueryError (List Product) × Storage :=
  match load_or_build emb db st with
  | (.error e, st') => (.error (.build e), st')
  | (.ok (idx, ids), st') =>
    match emb query_text with
    | none => (.error .embedFailed, st')
    | some q =>
      let qn := normalize q
      let prs := searchPairs idx.vecs qn top_k
      let hit_ids : List Int := prs.filterMap fun (pr : Int × ℝ) =>
        if 0 ≤ pr.1 then ids[pr.1.toNat]? else none
      if hit_ids = [] then (.ok [], st')
      else
        let rows := db.filter fun p => hit_ids.contains p.id
        let result := hit_ids.filterMap fun i =>
          rows.reverse.find? fun r => r.id == i
        (.ok result, st')

/-- Embeds `query_with_scores` of `vector_store.py`. -/
noncomputable def query_with_scores (emb : String → Option (List ℝ))
    (db : DB) (st : Storage) (query_text : String) (top_k : ℕ) :
    Except QueryError (List (Product × ℝ)) × Storage :=
  match load_or_build emb db st with
  | (.error e, st') => (.error (.build e), st')
  | (.ok (idx, ids), st') =>
    match emb query_text with
    | none => (.error .embedFailed, st')
    | some q =>
      let qn := normalize q
      let prs := searchPairs idx.vecs qn top_k
      let hit : List (Product × ℝ) :=
        if ids = [] then []
        else
          let rows := db.filter fun p => ids.contains p.id
          prs.filterMap fun (pr : Int × ℝ) =>
            if 0 ≤ pr.1 then
              match ids[pr.1.toNat]? with
              | some pid =>
                match rows.reverse.find? fun r => r.id == pid with
                | some prod => some (prod, pr.2)
                | none => none
              | none => none
            else none
      (.ok hit, st')

/-- Auxiliary list identity: keeping `f a` for exactly the elements on
which an option is `some` is filtering by `isSome` and mapping. -/
lemma filterMap_option_map_const {α β γ : Type} (o : α → Option γ)
    (f : α → β) (l : List α) :
    (l.filterMap fun a => (o a).map fun _ => f a) =
      (l.filter fun a => (o a).isSome).map f := by
  induction l with
  | nil => simp
  | cons a t ih =>
    cases h : o a <;> simp [List.filterMap_cons, List.filter_cons, h, ih]

/-- Evaluating `normalize` on the one-entry vector `[1]`. -/
lemma normalize_single_one : normalize [(1 : ℝ)] = [1] := by
  simp [normalize, l2norm, sumSq, Real.sqrt_one]

/-- A one-product store and an embedding oracle used as concrete
instances in witnesses. -/
def embW : String → Option (List ℝ) := fun _ => some [1]

def dbW : DB := [⟨7, some "widget", some "a widget", some 10, some "tools", some "acme"⟩]

def idxW : Index := ⟨1, [[1]]⟩

def snapW : Snapshot := ⟨idxW, [7]⟩

lemma buildW_eq :
    build_index embW dbW .absent = (.ok (idxW, [7]), .snapshot snapW) := by
  simp [build_index, embW, dbW, productText, normalize_single_one, idxW,
    snapW]

/-- The id a search row contributes, when its position is valid:
`ids[i]` guarded by `i >= 0 and i < len(ids)`. -/
def validId (ids : List Int) (pr : Int × ℝ) : Option Int :=
  if 0 ≤ pr.1 then ids[pr.1.toNat]? else none

/-- Looking a product id up in a dict built by insertion over rows:
the last row with that id wins. -/
def dbLookup (db : DB) (i : Int) : Option Product :=
  db.reverse.find? fun r => r.id == i

/-- Canonical form of the hit list `query` produces. -/
def canonQuery (db : DB) (ids : List Int) (prs : List (Int × ℝ)) :
    List Product :=
  prs.filterMap fun pr => (validId ids pr).bind (dbLookup db)

/-- Canonical form of the hit list `query_with_scores` produces. -/
def canonQws (db : DB) (ids : List Int) (prs : List (Int × ℝ)) :
    List (Product × ℝ) :=
  prs.filterMap fun pr =>
    (validId ids pr).bind fun pid =>
      (dbLookup db pid).map fun prod => (prod, pr.2)

/-- The reachable-storage hypothesis: any snapshot present on disk holds
vectors of norm at most one (as every snapshot the program itself writes
does, since `build_index` normalizes before adding). -/
def StorageOK : Storage → Prop
  | .snapshot s => ∀ v ∈ s.index.vecs, sumSq v ≤ 1
  | _ => True

/-- A recommendation record as assembled by
`ToolExecutor.recommend_products` (src/app/services/tool.py); the same
dict shape is built by `AgentService._recommend_products`. -/
structure Rec where
  id : Int
  name : Option String
  price : Option ℝ
  category : Option String
  brand : Option String
  similarity : ℝ
  reason : String

/-- The record built for one surviving hit. -/
def mkRec (prefs : String) (p : Product) (score : ℝ) : Rec :=
  ⟨p.id, p.name, p.price, p.category, p.brand, score,
    "Recommended based on your preferences: '" ++ prefs ++ "'"⟩

/-- Spec-side budget predicate: with no budget everything passes; with a
budget, the price must be present and at most the budget. -/
noncomputable def budgetOkB : Option ℝ → Product → Bool
  | none, _ => true
  | some b, p =>
    match p.price with
    | some pr => decide (pr ≤ b)
    | none => false

/-- Embeds `ToolExecutor.recommend_products` (tool.py): query with
scores at `top_k=2`, drop hits scoring strictly below `min_similarity`,
then — when a budget is given — drop records without a price or with
price above the budget. -/
noncomputable def recommend_products (emb : String → Option (List ℝ))
    (db : DB) (st : Storage) (user_preferences : String)
    (budget : Option ℝ := none) (min_similarity : ℝ := 0.5) :
    Except QueryError (List Rec) × Storage :=
  match query_with_scores emb db st user_preferences 2 with
  | (.error e, st') => (.error e, st')
  | (.ok hits, st') =>
    let recs := hits.filterMap fun h =>
      if h.2 < min_similarity then none
      else some (mkRec user_preferences h.1 h.2)
    let recs2 :=
      match budget with
      | none => recs
      | some b => recs.filter fun r =>
          match r.price with
          | some pr => decide (pr ≤ b)
          | none => false
    (.ok recs2, st')

end VectorStore

/-- The concrete storage state used in witnesses: a snapshot holding one
unit vector for product id 7. -/
def stW : VectorStore.Storage := .snapshot VectorStore.snapW


namespace ContextSvc

/-- A conversation turn (src/app/models/chat.py `ChatMessage`); the
timestamp is carried but never read by the context logic. -/
structure ChatMessage where
  role : String
  content : String
  timestamp : Nat := 0
deriving DecidableEq

/-- A `{"role": ..., "content": ...}` dict sent to the completion API. -/
structure Msg where
  role : String
  content : String
deriving DecidableEq

/-- `ContextManager.__init__` configuration (context.py); the completion
client is passed separately as an oracle. -/
structure ContextManager where
  system_prompt : String
  max_history_turns : ℕ := 4
  keep_recent_turns : ℕ := 2

/-- Python `l[:-k]`. -/
def pyDropLast {α : Type} (k : ℕ) (l : List α) : List α :=
  if k = 0 then [] else l.take (l.length - k)

/-- Python `l[-k:]`. -/
def pyTakeLast {α : Type} (k : ℕ) (l : List α) : List α :=
  if k = 0 then l else l.drop (l.length - k)

/-- The fixed system instruction of `summarize_history`. -/
def summarizeInstruction : String :=
  "You are an assistant that produces a brief, neutral conversation " ++
  "summary. Capture the user's preferences, constraints (e.g., " ++
  "budget), decisions taken, and any pending questions. Keep it " ++
  "under 120 words, in English."

/-- The message sequence `summarize_history` sends to the model: the
instruction plus at most the last 20 older turns. -/
def summaryPrompt (older : List ChatMessage) : List Msg :=
  ⟨"system", summarizeInstruction⟩ ::
    (pyTakeLast 20 older).map fun m => ⟨m.role, m.content⟩

/-- Embeds `ContextManager.summarize_history` (context.py).  `complete`
is the chat-completions client; any failure of it is caught and turned
into `none`. -/
def summarize_history (complete : List Msg → Except Unit String)
    (cm : ContextManager) (history : List ChatMessage) : Option String :=
  if history = [] ∨ history.length ≤ cm.keep_recent_turns then none
  else
    let older := pyDropLast cm.keep_recent_turns history
    if older = [] then none
    else
      match complete (summaryPrompt older) with
      | .ok s => some s
      | .error _ => none

/-- The marker prefix a persisted summary turn starts with. -/
def summaryMarker : String := "Conversation summary:"

/-- Embeds `ContextManager.build_messages` (context.py); the same
message-assembly code appears in `AgentService.generate_response`
(agent_service.py). -/
def build_messages (complete : List Msg → Except Unit String)
    (cm : ContextManager) (history : List ChatMessage)
    (user_message : String) : List Msg :=
  let messages : List Msg := [⟨"system", cm.system_prompt⟩]
  let messages := messages ++
    (if history = [] then []
     else
       match history.reverse.find? fun m =>
           m.role == "system" && m.content.startsWith summaryMarker with
       | some m => [⟨"system", m.content⟩]
       | none => [])
  let messages := messages ++
    (if history ≠ [] ∧ history.length > cm.max_history_turns then
       match summarize_history complete cm history with
       | some s =>
         if s = "" then []
         else [⟨"system", "Conversation summary: " ++ s⟩]
       | none => []
     else [])
  let messages := messages ++
    (if history = [] then []
     else (pyTakeLast cm.keep_recent_turns history).map fun m =>
       ⟨m.role, m.content⟩)
  messages ++ [⟨"user", user_message⟩]

end ContextSvc

namespace Agent

/-- One tool call requested by the model. -/
structure ToolCall (Args : Type) where
  id : String
  name : String
  arguments : Args

/-- What a tool dispatch returns: a recommendation list, or the
structured error dict for an unknown function name. -/
inductive ToolResult
  | recs (l : List VectorStore.Rec)
  | error (msg : String)

/-- A completed tool call as reported to the caller. -/
structure ToolInvocation (Args : Type) where
  function : String
  arguments : Args
  result : ToolResult

/-- The first (intent) completion's message. -/
structure IntentMessage (Args : Type) where
  content : String
  tool_calls : List (ToolCall Args)

/-- The value `generate_response` returns. -/
structure AgentResponse (Args : Type) where
  response : String
  tool_calls : List (ToolInvocation Args)

/-- The fixed user-facing apology produced when a completion call
raises. -/
def apologyResponse (Args : Type) : AgentResponse Args :=
  ⟨"Sorry, I cannot process your request right now. " ++
    "Please try again later.", []⟩

/-- Embeds the name dispatch of `ToolExecutor.execute` (tool.py), which
is also the dispatch of `AgentService._execute_tool`
(agent_service.py): the two known names go to their handlers, anything
else returns the structured unknown-function error instead of
raising. -/
def executeTool {Args : Type} (recommend : Args → ToolResult)
    (searchByImage : Args → ToolResult) (name : String) (args : Args) :
    ToolResult :=
  if name = "recommend_products" then recommend args
  else if name = "search_by_image" then searchByImage args
  else .error ("Unknown function: " ++ name)

/-- Embeds the control flow of `AgentService.generate_response`
(agent_service.py): intent call, optional tool fan-out through the
dispatcher, synthesis call; any completion failure becomes the apology
with an empty tool-call list. -/
def generate_response {Args : Type}
    (intentResp : Except Unit (IntentMessage Args))
    (synthResp : Except Unit String)
    (exec : String → Args → ToolResult) : AgentResponse Args :=
  match intentResp with
  | .error _ => apologyResponse Args
  | .ok m =>
    if m.tool_calls.isEmpty then ⟨m.content, []⟩
    else
      let results := m.tool_calls.map fun tc =>
        ToolInvocation.mk tc.name tc.arguments (exec tc.name tc.arguments)
      match synthResp with
      | .error _ => apologyResponse Args
      | .ok c => ⟨c, results⟩

end Agent

namespace ContextSvc

lemma pyTakeLast_nil {α : Type} (k : ℕ) :
    pyTakeLast k ([] : List α) = [] := by
  unfold pyTakeLast
  split <;> simp

lemma length_pyTakeLast_le {α : Type} (k : ℕ) (hk : k ≠ 0) (l : List α) :
    (pyTakeLast k l).length ≤ k := by
  unfold pyTakeLast
  rw [if_neg hk, List.length_drop]
  omega

end ContextSvc

/-- C6: `build_messages` produces, in order: the static persona message;
then at most one carried-forward summary — the most recent system turn
whose content starts with the marker, found scanning newest to oldest;
then, when the history is longer than `max_history_turns` (default 4)
and the summarizer yields a non-empty text, one freshly generated
summary, regardless of whether a carried-forward one was included; then
the last `keep_recent_turns` (default 2) turns verbatim; then the new
user message. -/
theorem C6_build_messages_order
    (complete : List ContextSvc.Msg → Except Unit String)
    (cm : ContextSvc.ContextManager)
    (history : List ContextSvc.ChatMessage) (user : String) :
    ContextSvc.build_messages complete cm history user =
      ContextSvc.Msg.mk "system" cm.system_prompt ::
        (((history.reverse.find? fun m => m.role == "system" &&
            m.content.startsWith ContextSvc.summaryMarker).map fun m =>
              ContextSvc.Msg.mk "system" m.content).toList ++
          ((if cm.max_history_turns < history.length then
              (ContextSvc.summarize_history complete cm history).bind
                fun s =>
                  if s = "" then none
                  else some (ContextSvc.Msg.mk "system"
                    ("Conversation summary: " ++ s))
            else none).toList ++
            ((ContextSvc.pyTakeLast cm.keep_recent_turns history).map
              (fun m => ContextSvc.Msg.mk m.role m.content) ++
              [ContextSvc.Msg.mk "user" user]))) ∧
    ({ system_prompt := "p" } :
      ContextSvc.ContextManager).max_history_turns = 4 ∧
    ({ system_prompt := "p" } :
      ContextSvc.ContextManager).keep_recent_turns = 2 := by
  refine ⟨?_, rfl, rfl⟩
  simp only [ContextSvc.build_messages]
  by_cases hnil : history = []
  · subst hnil
    simp [ContextSvc.pyTakeLast_nil]
  · rw [if_neg hnil, if_neg hnil]
    by_cases hlen : cm.max_history_turns < history.length
    · rw [if_pos ⟨hnil, hlen⟩, if_pos hlen]
      cases hfind : history.reverse.find? fun m =>
          m.role == "system" &&
            m.content.startsWith ContextSvc.summaryMarker with
      | none =>
        cases hs : ContextSvc.summarize_history complete cm history with
        | none => simp
        | some s =>
          by_cases hse : s = "" <;> simp [hse]
      | some m =>
        cases hs : ContextSvc.summarize_history complete cm history with
        | none => simp
        | some s =>
          by_cases hse : s = "" <;> simp [hse]
    · rw [if_neg (fun h => hlen h.2), if_neg hlen]
      cases hfind : history.reverse.find? fun m =>
          m.role == "system" &&
            m.content.startsWith ContextSvc.summaryMarker with
      | none => simp
      | some m => simp

/-- C7: `summarize_history` returns absent when the history has at most
`keep_recent_turns` entries or the older slice is empty; when it does
summarize it sends the instruction plus at most the last 20 older turns
(at most 21 messages); and any completion failure is converted into
absent. -/
theorem C7_summarize_absent_cap_and_degrade
    (complete : List ContextSvc.Msg → Except Unit String)
    (cm : ContextSvc.ContextManager)
    (history : List ContextSvc.ChatMessage) :
    (history.length ≤ cm.keep_recent_turns →
      ContextSvc.summarize_history complete cm history = none) ∧
    (ContextSvc.pyDropLast cm.keep_recent_turns history = [] →
      ContextSvc.summarize_history complete cm history = none) ∧
    ((ContextSvc.summaryPrompt
        (ContextSvc.pyDropLast cm.keep_recent_turns history)).length ≤
          21 ∧
      ContextSvc.summaryPrompt
          (ContextSvc.pyDropLast cm.keep_recent_turns history) =
        ContextSvc.Msg.mk "system" ContextSvc.summarizeInstruction ::
          (ContextSvc.pyTakeLast 20
            (ContextSvc.pyDropLast cm.keep_recent_turns history)).map
              (fun m => ContextSvc.Msg.mk m.role m.content)) ∧
    (∀ e : Unit,
      complete (ContextSvc.summaryPrompt
        (ContextSvc.pyDropLast cm.keep_recent_turns history)) =
          .error e →
      ContextSvc.summarize_history complete cm history = none) := by
  refine ⟨?_, ?_, ⟨?_, rfl⟩, ?_⟩
  · intro h
    rw [ContextSvc.summarize_history, if_pos (Or.inr h)]
  · intro h
    rw [ContextSvc.summarize_history]
    by_cases h1 : history = [] ∨ history.length ≤ cm.keep_recent_turns
    · rw [if_pos h1]
    · rw [if_neg h1, if_pos h]
  · rw [ContextSvc.summaryPrompt]
    simp only [List.length_cons, List.length_map]
    have := ContextSvc.length_pyTakeLast_le 20 (by norm_num)
      (ContextSvc.pyDropLast cm.keep_recent_turns history)
    omega
  · intro e he
    rw [ContextSvc.summarize_history]
    by_cases h1 : history = [] ∨ history.length ≤ cm.keep_recent_turns
    · rw [if_pos h1]
    · rw [if_neg h1]
      by_cases h2 : ContextSvc.pyDropLast cm.keep_recent_turns history
          = []
      · rw [if_pos h2]
      · rw [if_neg h2, he]

/-- Concrete instances for the C7 witness. -/
def cmW : ContextSvc.ContextManager := { system_prompt := "persona" }

def completeFailW : List ContextSvc.Msg → Except Unit String :=
  fun _ => .error ()

def histShortW : List ContextSvc.ChatMessage := [⟨"user", "hi", 0⟩]

def histLongW : List ContextSvc.ChatMessage :=
  List.replicate 5 ⟨"user", "hi", 0⟩

/-- Witness for C7: a two-turn-window manager returns absent on a
one-turn history, and a failing completion client on a five-turn
history also yields absent. -/
theorem C7_summarize_absent_cap_and_degrade_witness :
    (histShortW.length ≤ cmW.keep_recent_turns ∧
      ContextSvc.summarize_history completeFailW cmW histShortW =
        none) ∧
    (completeFailW (ContextSvc.summaryPrompt
        (ContextSvc.pyDropLast cmW.keep_recent_turns histLongW)) =
          .error () ∧
      ContextSvc.summarize_history completeFailW cmW histLongW =
        none) :=
  ⟨⟨by decide,
    (C7_summarize_absent_cap_and_degrade completeFailW cmW
      histShortW).1 (by decide)⟩,
    ⟨rfl,
    (C7_summarize_absent_cap_and_degrade completeFailW cmW
      histLongW).2.2.2 () rfl⟩⟩

/-- C8: dispatching any function name other than `recommend_products`
and `search_by_image` returns the structured
`Unknown function: <name>` error result instead of raising, and the
turn still completes: with such a tool call requested and a successful
synthesis call, `generate_response` returns the synthesized answer
together with the structured error result. -/
theorem C8_unknown_tool_is_structured_error {Args : Type}
    (recommend searchByImage : Args → Agent.ToolResult) (name : String)
    (args : Args) (h1 : name ≠ "recommend_products")
    (h2 : name ≠ "search_by_image") :
    Agent.executeTool recommend searchByImage name args =
      .error ("Unknown function: " ++ name) ∧
    (∀ (id content synth : String),
      Agent.generate_response
          (.ok ⟨content, [⟨id, name, args⟩]⟩) (.ok synth)
          (Agent.executeTool recommend searchByImage) =
        ⟨synth, [⟨name, args,
          .error ("Unknown function: " ++ name)⟩]⟩) := by
  have hexec : Agent.executeTool recommend searchByImage name args =
      .error ("Unknown function: " ++ name) := by
    rw [Agent.executeTool, if_neg h1, if_neg h2]
  refine ⟨hexec, ?_⟩
  intro id content synth
  simp only [Agent.generate_response, List.isEmpty_cons, Bool.false_eq_true,
    if_false, List.map_cons, List.map_nil, hexec]

/-- Witness for C8 at the unknown tool name `delete_catalog`. -/
theorem C8_unknown_tool_is_structured_error_witness :
    Agent.executeTool (fun _ : Unit => Agent.ToolResult.recs [])
        (fun _ : Unit => Agent.ToolResult.recs []) "delete_catalog" () =
      .error ("Unknown function: " ++ "delete_catalog") ∧
    (∀ (id content synth : String),
      Agent.generate_response
          (.ok ⟨content, [⟨id, "delete_catalog", ()⟩]⟩) (.ok synth)
          (Agent.executeTool (fun _ : Unit => Agent.ToolResult.recs [])
            (fun _ : Unit => Agent.ToolResult.recs [])) =
        ⟨synth, [⟨"delete_catalog", (),
          .error ("Unknown function: " ++ "delete_catalog")⟩]⟩) :=
  C8_unknown_tool_is_structured_error
    (fun _ : Unit => Agent.ToolResult.recs [])
    (fun _ : Unit => Agent.ToolResult.recs []) "delete_catalog" ()
    (by decide) (by decide)

/-- C9: for every vector `v`, `normalize v` has L2 norm 1 when `v` is not
the all-zero vector, and `normalize` of an all-zero vector returns it
unchanged (the division by the norm is guarded, zero stays zero). -/
theorem C9_normalize_norm (v : List ℝ) :
    (¬ (∀ x ∈ v, x = 0) → VectorStore.l2norm (VectorStore.normalize v) = 1) ∧
    ((∀ x ∈ v, x = 0) → VectorStore.normalize v = v) := by
  constructor
  · intro h
    unfold VectorStore.l2norm
    rw [VectorStore.sumSq_normalize_of_ne_zero h, Real.sqrt_one]
  · exact VectorStore.normalize_of_all_zero

/-- Witness for C9 at the concrete vector `[3, 4]`. -/
theorem C9_normalize_norm_witness :
    (¬ (∀ x ∈ [(3 : ℝ), 4], x = 0)) ∧
      VectorStore.l2norm (VectorStore.normalize [(3 : ℝ), 4]) = 1 := by
  have h : ¬ (∀ x ∈ [(3 : ℝ), 4], x = 0) := by
    intro h
    have := h 3 (by simp)
    norm_num at this
  exact ⟨h, (C9_normalize_norm [(3 : ℝ), 4]).1 h⟩

namespace VectorStore

lemma length_filterMap_eq_length_filter {α β : Type} (f : α → Option β)
    (l : List α) :
    (l.filterMap f).length = (l.filter fun a => (f a).isSome).length := by
  induction l with
  | nil => simp
  | cons a t ih =>
    cases h : f a <;> simp [List.filterMap_cons, List.filter_cons, h, ih]

/-- Inversion on a successful `build_index`: the ids and the stored
vectors are the two projections of the lockstep loop over the product
rows, and the written snapshot is exactly the returned pair. -/
lemma build_index_ok {emb : String → Option (List ℝ)} {db : DB}
    {st : Storage} {idx : Index} {ids : List Int} {st' : Storage}
    (h : build_index emb db st = (.ok (idx, ids), st')) :
    ids = (db.filterMap fun p =>
        (emb (productText p)).map fun _ => p.id) ∧
    idx.vecs = (db.filterMap fun p =>
        (emb (productText p)).map fun e => normalize e) ∧
    st' = .snapshot ⟨idx, ids⟩ := by
  simp only [build_index] at h
  split at h
  · simp at h
  · rename_i v0 tl heq
    split at h
    · rename_i hall
      rw [Prod.mk.injEq, Except.ok.injEq, Prod.mk.injEq] at h
      obtain ⟨⟨hidx, hids⟩, hst⟩ := h
      have hfst : (db.filterMap fun p =>
          (emb (productText p)).map fun e => (p.id, normalize e)).map
            Prod.fst =
          db.filterMap fun p => (emb (productText p)).map fun _ => p.id := by
        rw [List.map_filterMap]
        simp [Option.map_map, Function.comp_def]
      have hsnd : (db.filterMap fun p =>
          (emb (productText p)).map fun e => (p.id, normalize e)).map
            Prod.snd =
          db.filterMap fun p =>
            (emb (productText p)).map fun e => normalize e := by
        rw [List.map_filterMap]
        simp [Option.map_map, Function.comp_def]
      refine ⟨?_, ?_, ?_⟩
      · rw [← hids, hfst]
      · rw [← hidx, ← hsnd, heq]
      · rw [← hst, ← hids, ← hidx]
    · simp at h

/-- A successful build never returns an empty id list. -/
lemma build_index_ok_ids_ne_nil {emb : String → Option (List ℝ)} {db : DB}
    {st : Storage} {idx : Index} {ids : List Int} {st' : Storage}
    (h : build_index emb db st = (.ok (idx, ids), st')) : ids ≠ [] := by
  simp only [build_index] at h
  split at h
  · simp at h
  · rename_i v0 tl heq
    split at h
    · rw [Prod.mk.injEq, Except.ok.injEq, Prod.mk.injEq] at h
      obtain ⟨⟨hidx, hids⟩, hst⟩ := h
      intro hnil
      rw [hnil] at hids
      rw [List.map_eq_nil_iff] at hids
      rw [hids] at heq
      simp at heq
    · simp at h

/-- `build_index` reports the empty corpus exactly when no product row
yielded a usable embedding. -/
lemma build_index_emptyCorpus_iff (emb : String → Option (List ℝ))
    (db : DB) (st : Storage) :
    (build_index emb db st).1 = .error .emptyCorpus ↔
      ∀ p ∈ db, emb (productText p) = none := by
  simp only [build_index]
  split
  · rename_i heq
    rw [List.map_eq_nil_iff, List.filterMap_eq_nil_iff] at heq
    simp only [Except.error.injEq, true_iff]
    intro p hp
    have := heq p hp
    simpa [Option.map_eq_none'] using this
  · rename_i v0 tl heq
    have hne : ¬ ∀ p ∈ db, emb (productText p) = none := by
      intro hall
      have : (db.filterMap fun p =>
          (emb (productText p)).map fun e => (p.id, normalize e)) = [] := by
        rw [List.filterMap_eq_nil_iff]
        intro p hp
        simp [hall p hp]
      rw [this] at heq
      simp at heq
    split <;> simp [hne]

lemma mem_of_getElem?_list {α : Type} {l : List α} {n : ℕ} {a : α}
    (h : l[n]? = some a) : a ∈ l := by
  obtain ⟨hlt, rfl⟩ := List.getElem?_eq_some.mp h
  exact List.getElem_mem hlt

lemma find?_filter_of_imp {α : Type} (l : List α) (p q : α → Bool)
    (h : ∀ a, p a = true → q a = true) :
    (l.filter q).find? p = l.find? p := by
  induction l with
  | nil => simp
  | cons a t ih =>
    cases hp : p a with
    | true =>
      rw [List.filter_cons, if_pos (h a hp)]
      simp [List.find?_cons, hp]
    | false =>
      rw [List.filter_cons]
      cases hq : q a with
      | true =>
        rw [if_pos rfl]
        simp [List.find?_cons, hp, ih]
      | false =>
        rw [if_neg (by simp [hq]), ih]
        simp [List.find?_cons, hp]

/-- Finding the last matching row in the rows filtered to a candidate id
set equals finding it among all rows, whenever the id looked up belongs
to the candidate set. -/
lemma find?_filtered_rows (db : DB) (cand : List Int) {i : Int}
    (hi : i ∈ cand) :
    ((db.filter fun p => cand.contains p.id).reverse.find?
        fun r => r.id == i) = dbLookup db i := by
  rw [← List.filter_reverse, dbLookup]
  apply find?_filter_of_imp
  intro a ha
  have : a.id = i := by simpa using ha
  simp [List.contains, this]
  exact hi

/-- `query`, in canonical form: after a usable index is obtained and the
query text embeds, the hit rows are the valid search positions resolved
through the id list and the product dict. -/
lemma query_result_eq {emb : String → Option (List ℝ)} {db : DB}
    {st : Storage} {qt : String} {k : ℕ} {idx : Index} {ids : List Int}
    {st' : Storage} {q : List ℝ}
    (hlb : load_or_build emb db st = (.ok (idx, ids), st'))
    (hq : emb qt = some q) :
    query emb db st qt k =
      (.ok (canonQuery db ids (searchPairs idx.vecs (normalize q) k)),
        st') := by
  simp only [query, hlb, hq]
  set prs := searchPairs idx.vecs (normalize q) k with hprs
  have hf : (fun (pr : Int × ℝ) =>
      if 0 ≤ pr.1 then ids[pr.1.toNat]? else none) = validId ids := by
    funext pr
    rfl
  rw [hf]
  set hit_ids := prs.filterMap (validId ids) with hhit
  by_cases hnil : hit_ids = []
  · rw [if_pos hnil]
    have : canonQuery db ids prs = [] := by
      rw [canonQuery]
      rw [List.filterMap_eq_nil_iff]
      intro pr hpr
      have := List.filterMap_eq_nil_iff.mp (hhit ▸ hnil) pr hpr
      rw [this]
      rfl
    rw [this]
  · rw [if_neg hnil]
    refine congrArg (fun l => (Except.ok l, st')) ?_
    have hcongr : (hit_ids.filterMap fun i =>
        (db.filter fun p => hit_ids.contains p.id).reverse.find?
          fun r => r.id == i) = hit_ids.filterMap (dbLookup db) := by
      apply List.filterMap_congr
      intro i hi
      exact find?_filtered_rows db hit_ids hi
    rw [hcongr, hhit, List.filterMap_filterMap]
    rfl

/-- `query_with_scores`, in canonical form. -/
lemma query_with_scores_result_eq {emb : String → Option (List ℝ)}
    {db : DB} {st : Storage} {qt : String} {k : ℕ} {idx : Index}
    {ids : List Int} {st' : Storage} {q : List ℝ}
    (hlb : load_or_build emb db st = (.ok (idx, ids), st'))
    (hq : emb qt = some q) :
    query_with_scores emb db st qt k =
      (.ok (canonQws db ids (searchPairs idx.vecs (normalize q) k)),
        st') := by
  simp only [query_with_scores, hlb, hq]
  set prs := searchPairs idx.vecs (normalize q) k with hprs
  by_cases hids : ids = []
  · rw [if_pos hids]
    have : canonQws db ids prs = [] := by
      rw [canonQws, List.filterMap_eq_nil_iff]
      intro pr hpr
      simp [validId, hids]
    rw [this]
  · rw [if_neg hids]
    refine congrArg (fun l => (Except.ok l, st')) ?_
    apply List.filterMap_congr
    intro pr hpr
    by_cases hpos : 0 ≤ pr.1
    · cases hget : ids[pr.1.toNat]? with
      | none => simp [validId, hpos, hget]
      | some pid =>
        have hmem : pid ∈ ids := mem_of_getElem?_list hget
        simp only [validId, if_pos hpos, hget, Option.some_bind]
        rw [find?_filtered_rows db ids hmem]
        cases dbLookup db pid <;> rfl
    · simp [validId, hpos]

/-- Dropping the scores from the canonical `query_with_scores` hits
yields the canonical `query` hits. -/
lemma canonQws_map_fst (db : DB) (ids : List Int) (prs : List (Int × ℝ)) :
    (canonQws db ids prs).map Prod.fst = canonQuery db ids prs := by
  rw [canonQws, canonQuery, List.map_filterMap]
  refine congrArg (fun f => List.filterMap f prs) (funext fun pr => ?_)
  cases validId ids pr with
  | none => rfl
  | some pid =>
    simp only [Option.some_bind]
    cases dbLookup db pid <;> rfl

/-- Every search row at a valid (non-padding) position carries the true
inner-product score of some stored vector. -/
lemma searchPairs_valid_score {vecs : List (List ℝ)} {q : List ℝ} {k : ℕ}
    {pr : Int × ℝ} (h : pr ∈ searchPairs vecs q k) (hpos : 0 ≤ pr.1) :
    ∃ v ∈ vecs, pr.2 = dot q v := by
  simp only [searchPairs] at h
  rw [List.mem_append] at h
  cases h with
  | inl h =>
    have hsorted := List.mem_of_mem_take h
    have hperm := List.perm_insertionSort
      (fun a b : Int × ℝ => b.2 ≤ a.2)
      (vecs.enum.map fun pr => ((pr.1 : Int), dot q pr.2))
    have hmem := hperm.mem_iff.mp hsorted
    obtain ⟨⟨i, v⟩, hm, heq⟩ := List.mem_map.mp hmem
    refine ⟨v, ?_, ?_⟩
    · have : v ∈ vecs.enum.map Prod.snd := List.mem_map_of_mem Prod.snd hm
      rwa [List.enum_map_snd] at this
    · rw [← heq]
  | inr h =>
    have := List.eq_of_mem_replicate h
    rw [this] at hpos
    norm_num at hpos

/-- The vectors of a freshly built index all have norm at most one. -/
lemma build_index_vecs_le_one {emb : String → Option (List ℝ)} {db : DB}
    {st : Storage} {idx : Index} {ids : List Int} {st' : Storage}
    (h : build_index emb db st = (.ok (idx, ids), st')) :
    ∀ v ∈ idx.vecs, sumSq v ≤ 1 := by
  obtain ⟨_, hvecs, _⟩ := build_index_ok h
  intro v hv
  rw [hvecs] at hv
  obtain ⟨p, _, hsome⟩ := List.mem_filterMap.mp hv
  cases he : emb (productText p) with
  | none => rw [he] at hsome; simp at hsome
  | some e =>
    rw [he] at hsome
    simp only [Option.map_some'] at hsome
    rw [Option.some.injEq] at hsome
    rw [← hsome]
    exact sumSq_normalize_le_one e

/-- Under the reachable-storage hypothesis, whatever index
`load_or_build` hands to the search has vectors of norm at most one. -/
lemma load_or_build_vecs_le_one {emb : String → Option (List ℝ)} {db : DB}
    {st : Storage} {idx : Index} {ids : List Int} {st' : Storage}
    (hok : StorageOK st)
    (h : load_or_build emb db st = (.ok (idx, ids), st')) :
    ∀ v ∈ idx.vecs, sumSq v ≤ 1 := by
  rw [load_or_build] at h
  cases st with
  | absent => exact build_index_vecs_le_one h
  | corrupt => exact build_index_vecs_le_one h
  | snapshot s =>
    simp only [load_index] at h
    by_cases hids : s.ids = []
    · rw [if_pos hids] at h
      exact build_index_vecs_le_one h
    · rw [if_neg hids] at h
      rw [Prod.mk.injEq, Except.ok.injEq, Prod.mk.injEq] at h
      obtain ⟨⟨hidx, _⟩, _⟩ := h
      rw [← hidx]
      exact hok

/-- Every hit in the canonical `query_with_scores` result has score at
most one, provided the stored vectors have norm at most one. -/
lemma canonQws_score_le_one {db : DB} {ids : List Int} {idx : Index}
    (q : List ℝ) (k : ℕ) (hvecs : ∀ v ∈ idx.vecs, sumSq v ≤ 1) :
    ∀ x ∈ canonQws db ids (searchPairs idx.vecs (normalize q) k),
      x.2 ≤ 1 := by
  intro x hm
  rw [canonQws] at hm
  obtain ⟨pr, hpr, hsome⟩ := List.mem_filterMap.mp hm
  cases hv : validId ids pr with
  | none => rw [hv] at hsome; simp at hsome
  | some pid =>
    rw [hv] at hsome
    simp only [Option.some_bind] at hsome
    cases hl : dbLookup db pid with
    | none => rw [hl] at hsome; simp at hsome
    | some prod =>
      rw [hl] at hsome
      simp only [Option.map_some', Option.some.injEq] at hsome
      have hpos : 0 ≤ pr.1 := by
        by_contra hneg
        rw [validId, if_neg hneg] at hv
        exact absurd hv (by simp)
      obtain ⟨v, hvm, hscore⟩ := searchPairs_valid_score hpr hpos
      have hx2 : x.2 = pr.2 := by rw [← hsome]
      rw [hx2, hscore]
      exact dot_le_one_of_sumSq_le_one (sumSq_normalize_le_one q)
        (hvecs v hvm)

/-- Every score `query_with_scores` returns is at most one, for any
reachable storage state. -/
lemma query_with_scores_scores_le_one {emb : String → Option (List ℝ)}
    {db : DB} {st : Storage} {qt : String} {k : ℕ}
    {hits : List (Product × ℝ)} {st' : Storage} (hok : StorageOK st)
    (h : query_with_scores emb db st qt k = (.ok hits, st')) :
    ∀ x ∈ hits, x.2 ≤ 1 := by
  rcases hlb : load_or_build emb db st with ⟨res, st2⟩
  cases res with
  | error e =>
    simp only [query_with_scores, hlb] at h
    simp at h
  | ok pr =>
    rcases pr with ⟨idx, ids⟩
    cases hq : emb qt with
    | none =>
      simp only [query_with_scores, hlb, hq] at h
      simp at h
    | some q =>
      rw [query_with_scores_result_eq hlb hq] at h
      rw [Prod.mk.injEq, Except.ok.injEq] at h
      obtain ⟨hh, _⟩ := h
      rw [← hh]
      exact canonQws_score_le_one q k (load_or_build_vecs_le_one hok hlb)

lemma filterMap_ite_not {α β : Type} (p : α → Prop) [DecidablePred p]
    (f : α → β) (l : List α) :
    (l.filterMap fun a => if p a then none else some (f a)) =
      (l.filter fun a => !decide (p a)).map f := by
  induction l with
  | nil => simp
  | cons a t ih =>
    by_cases hp : p a <;>
      simp [List.filterMap_cons, List.filter_cons, hp, ih]

/-- `recommend_products`, in canonical form: one filter over the scored
hits (threshold and budget together), mapped to records — so the order
of the hits is preserved and never re-sorted. -/
lemma recommend_products_eq (emb : String → Option (List ℝ)) (db : DB)
    (st : Storage) (prefs : String) (budget : Option ℝ) (minSim : ℝ) :
    recommend_products emb db st prefs budget minSim =
      (Except.map (fun hits : List (Product × ℝ) =>
          (hits.filter fun h => !decide (h.2 < minSim) &&
              budgetOkB budget h.1).map fun h => mkRec prefs h.1 h.2)
        (query_with_scores emb db st prefs 2).1,
        (query_with_scores emb db st prefs 2).2) := by
  rcases hq : query_with_scores emb db st prefs 2 with ⟨res, st'⟩
  simp only [recommend_products, hq]
  cases res with
  | error e => rfl
  | ok hits =>
    simp only [Except.map]
    refine congrArg (fun l => (Except.ok l, st')) ?_
    rw [filterMap_ite_not (fun h : Product × ℝ => h.2 < minSim)
      (fun h : Product × ℝ => mkRec prefs h.1 h.2) hits]
    cases budget with
    | none => simp [budgetOkB]
    | some b =>
      simp only [List.filter_map, List.filter_filter]
      refine congrArg (List.map _) ?_
      apply List.filter_congr
      intro a _
      simp only [Function.comp_apply, mkRec, budgetOkB]
      rw [Bool.and_comm]

/-- A failed `build_index` leaves the snapshot storage untouched. -/
lemma build_index_error_storage {emb : String → Option (List ℝ)}
    {db : DB} {st : Storage} {e : BuildError}
    (h : (build_index emb db st).1 = .error e) :
    (build_index emb db st).2 = st := by
  rcases hb : build_index emb db st with ⟨res, st2⟩
  rw [hb] at h
  simp only at h ⊢
  simp only [build_index] at hb
  split at hb
  · rw [Prod.mk.injEq] at hb
    exact hb.2.symm
  · split at hb
    · rw [Prod.mk.injEq] at hb
      rw [← hb.1] at h
      simp at h
    · rw [Prod.mk.injEq] at hb
      exact hb.2.symm

end VectorStore

/-- C2: after every successful index build the length of the ordered id
list equals the number of vectors stored in the index, and the snapshot
written by that build loads back as the same aligned pair, so every
successful load of a build-written snapshot is aligned as well. -/
theorem C2_alignment_invariant (emb : String → Option (List ℝ))
    (db : VectorStore.DB) (st : VectorStore.Storage)
    (idx : VectorStore.Index) (ids : List Int) (st' : VectorStore.Storage)
    (h : VectorStore.build_index emb db st = (.ok (idx, ids), st')) :
    ids.length = idx.size ∧
      VectorStore.load_index st' = some (idx, ids) := by
  obtain ⟨hids, hvecs, hst⟩ := VectorStore.build_index_ok h
  constructor
  · rw [hids, VectorStore.Index.size, hvecs,
      VectorStore.length_filterMap_eq_length_filter,
      VectorStore.length_filterMap_eq_length_filter]
    simp [Option.isSome_map']
  · rw [hst]
    rfl

/-- Witness for C2: a concrete one-product build aligns and reloads. -/
theorem C2_alignment_invariant_witness :
    VectorStore.build_index VectorStore.embW VectorStore.dbW .absent =
      (.ok (VectorStore.idxW, [7]), .snapshot VectorStore.snapW) ∧
    ([(7 : Int)].length = VectorStore.idxW.size ∧
      VectorStore.load_index (.snapshot VectorStore.snapW) =
        some (VectorStore.idxW, [7])) :=
  ⟨VectorStore.buildW_eq,
    C2_alignment_invariant VectorStore.embW VectorStore.dbW .absent
      VectorStore.idxW [7] (.snapshot VectorStore.snapW)
      VectorStore.buildW_eq⟩

/-- C3: `build_index` skips exactly the products whose embedding could
not be computed, fails with the empty-corpus error precisely when no
product yields a usable vector, leaves the persisted snapshot untouched
on any failure, and on success overwrites storage with the full new
snapshot. -/
theorem C3_build_skips_and_empty_corpus (emb : String → Option (List ℝ))
    (db : VectorStore.DB) (st : VectorStore.Storage) :
    (∀ idx ids st',
        VectorStore.build_index emb db st = (.ok (idx, ids), st') →
        ids = (db.filter fun p =>
            (emb (VectorStore.productText p)).isSome).map (fun p => p.id) ∧
        st' = .snapshot ⟨idx, ids⟩) ∧
    ((VectorStore.build_index emb db st).1 = .error .emptyCorpus ↔
      ∀ p ∈ db, emb (VectorStore.productText p) = none) ∧
    (∀ e, (VectorStore.build_index emb db st).1 = .error e →
      (VectorStore.build_index emb db st).2 = st) := by
  refine ⟨?_, VectorStore.build_index_emptyCorpus_iff emb db st,
    fun e he => VectorStore.build_index_error_storage he⟩
  intro idx ids st' h
  obtain ⟨hids, _, hst⟩ := VectorStore.build_index_ok h
  refine ⟨?_, hst⟩
  rw [hids, VectorStore.filterMap_option_map_const]

/-- Witness for C3: on the concrete store, a successful build yields
the filtered id list and overwrites storage; with an embedding oracle
that always fails, the build reports the empty corpus and leaves the
storage untouched. -/
theorem C3_build_skips_and_empty_corpus_witness :
    ([(7 : Int)] = (VectorStore.dbW.filter fun p =>
        (VectorStore.embW (VectorStore.productText p)).isSome).map
          (fun p => p.id) ∧
      (VectorStore.Storage.snapshot VectorStore.snapW) =
        .snapshot ⟨VectorStore.idxW, [7]⟩) ∧
    ((VectorStore.build_index (fun _ => none) VectorStore.dbW .absent).1 =
        .error .emptyCorpus) ∧
    ((VectorStore.build_index (fun _ => none) VectorStore.dbW .absent).2 =
        .absent) := by
  refine ⟨(C3_build_skips_and_empty_corpus VectorStore.embW VectorStore.dbW
      .absent).1 VectorStore.idxW [7] (.snapshot VectorStore.snapW)
      VectorStore.buildW_eq, ?_, ?_⟩
  · exact (C3_build_skips_and_empty_corpus (fun _ => none) VectorStore.dbW
      .absent).2.1.mpr (by intro p hp; rfl)
  · refine (C3_build_skips_and_empty_corpus (fun _ => none) VectorStore.dbW
      .absent).2.2 .emptyCorpus ?_
    exact (C3_build_skips_and_empty_corpus (fun _ => none) VectorStore.dbW
      .absent).2.1.mpr (by intro p hp; rfl)

/-- C10: the two retrieval entry points agree — for every database
state, storage state, query text and `top_k`, `query` returns exactly
the first components of the pairs `query_with_scores` returns (same
skipping of invalid positions and unknown ids, same order), and both
leave the snapshot storage in the same state. -/
theorem C10_query_agrees_with_query_with_scores
    (emb : String → Option (List ℝ)) (db : VectorStore.DB)
    (st : VectorStore.Storage) (qt : String) (k : ℕ) :
    (VectorStore.query emb db st qt k).1 =
      Except.map (List.map Prod.fst)
        (VectorStore.query_with_scores emb db st qt k).1 ∧
    (VectorStore.query emb db st qt k).2 =
      (VectorStore.query_with_scores emb db st qt k).2 := by
  rcases hlb : VectorStore.load_or_build emb db st with ⟨res, st'⟩
  cases res with
  | error e =>
    simp only [VectorStore.query, VectorStore.query_with_scores, hlb]
    constructor <;> trivial
  | ok pr =>
    rcases pr with ⟨idx, ids⟩
    cases hq : emb qt with
    | none =>
      simp only [VectorStore.query, VectorStore.query_with_scores, hlb, hq]
      constructor <;> trivial
    | some q =>
      rw [VectorStore.query_result_eq hlb hq,
        VectorStore.query_with_scores_result_eq hlb hq]
      refine ⟨?_, rfl⟩
      simp only [Except.map]
      exact congrArg Except.ok
        (VectorStore.canonQws_map_fst db ids _).symm

/-- C1: `recommend_products` returns exactly the subsequence of the
scored hits whose score is at least `min_similarity` (strictly lower
scores are discarded) and — when a budget is supplied — whose price is
present and at most the budget; the hit order is preserved (one filter,
one map, no re-sort).  Consequently every returned record respects a
supplied budget, and with `min_similarity = 1.1` the result is always
empty, because no inner product of normalized vectors exceeds 1. -/
theorem C1_recommend_products_contract
    (emb : String → Option (List ℝ)) (db : VectorStore.DB)
    (st : VectorStore.Storage) (prefs : String) (budget : Option ℝ)
    (minSim : ℝ) (hok : VectorStore.StorageOK st) :
    ((VectorStore.recommend_products emb db st prefs budget minSim).1 =
        Except.map (fun hits : List (VectorStore.Product × ℝ) =>
          (hits.filter fun h => !decide (h.2 < minSim) &&
              VectorStore.budgetOkB budget h.1).map
            fun h => VectorStore.mkRec prefs h.1 h.2)
          (VectorStore.query_with_scores emb db st prefs 2).1 ∧
      (VectorStore.recommend_products emb db st prefs budget minSim).2 =
        (VectorStore.query_with_scores emb db st prefs 2).2) ∧
    (∀ recs, (VectorStore.recommend_products emb db st prefs budget
        minSim).1 = .ok recs →
      ∀ r ∈ recs, ∀ b : ℝ, budget = some b →
        ∃ p, r.price = some p ∧ p ≤ b) ∧
    (minSim = 1.1 →
      ∀ recs, (VectorStore.recommend_products emb db st prefs budget
        minSim).1 = .ok recs → recs = []) := by
  have heq := VectorStore.recommend_products_eq emb db st prefs budget
    minSim
  refine ⟨⟨by rw [heq], by rw [heq]⟩, ?_, ?_⟩
  · intro recs hr r hrm b hb
    subst hb
    rw [heq] at hr
    rcases hqws : VectorStore.query_with_scores emb db st prefs 2 with
      ⟨res, st'⟩
    rw [hqws] at hr
    cases res with
    | error e => simp [Except.map] at hr
    | ok hits =>
      simp only [Except.map, Except.ok.injEq] at hr
      rw [← hr] at hrm
      obtain ⟨h', hh', rfl⟩ := List.mem_map.mp hrm
      have hf := (List.mem_filter.mp hh').2
      rw [Bool.and_eq_true] at hf
      have hb2 := hf.2
      cases hp : h'.1.price with
      | none => simp [VectorStore.budgetOkB, hp] at hb2
      | some pr =>
        simp only [VectorStore.budgetOkB, hp, decide_eq_true_eq] at hb2
        exact ⟨pr, by simp [VectorStore.mkRec, hp], hb2⟩
  · intro hms recs hr
    subst hms
    rw [heq] at hr
    rcases hqws : VectorStore.query_with_scores emb db st prefs 2 with
      ⟨res, st'⟩
    rw [hqws] at hr
    cases res with
    | error e => simp [Except.map] at hr
    | ok hits =>
      simp only [Except.map, Except.ok.injEq] at hr
      have hsc := VectorStore.query_with_scores_scores_le_one hok hqws
      have hnil : (hits.filter fun h =>
          !decide (h.2 < (1.1 : ℝ)) &&
            VectorStore.budgetOkB budget h.1) = [] := by
        rw [List.filter_eq_nil_iff]
        intro a ha
        have h1 := hsc a ha
        have hlt : a.2 < (1.1 : ℝ) := by
          have : (1 : ℝ) < 1.1 := by norm_num
          linarith
        simp [hlt]
      rw [← hr, hnil]
      simp

lemma stW_ok : VectorStore.StorageOK stW := by
  intro v hv
  simp only [VectorStore.snapW, VectorStore.idxW, List.mem_singleton]
    at hv
  subst hv
  simp [VectorStore.sumSq]

/-- Witness for C1 at a concrete store, budget 100 and threshold 1.1. -/
theorem C1_recommend_products_contract_witness :
    VectorStore.StorageOK stW ∧
    (((VectorStore.recommend_products VectorStore.embW VectorStore.dbW
        stW "cheap shirt for workouts" (some 100) 1.1).1 =
        Except.map (fun hits : List (VectorStore.Product × ℝ) =>
          (hits.filter fun h => !decide (h.2 < (1.1 : ℝ)) &&
              VectorStore.budgetOkB (some 100) h.1).map
            fun h => VectorStore.mkRec "cheap shirt for workouts" h.1
              h.2)
          (VectorStore.query_with_scores VectorStore.embW VectorStore.dbW
            stW "cheap shirt for workouts" 2).1 ∧
      (VectorStore.recommend_products VectorStore.embW VectorStore.dbW
        stW "cheap shirt for workouts" (some 100) 1.1).2 =
        (VectorStore.query_with_scores VectorStore.embW VectorStore.dbW
          stW "cheap shirt for workouts" 2).2) ∧
    (∀ recs, (VectorStore.recommend_products VectorStore.embW
        VectorStore.dbW stW "cheap shirt for workouts" (some 100)
        1.1).1 = .ok recs →
      ∀ r ∈ recs, ∀ b : ℝ, (some (100 : ℝ)) = some b →
        ∃ p, r.price = some p ∧ p ≤ b) ∧
    ((1.1 : ℝ) = 1.1 →
      ∀ recs, (VectorStore.recommend_products VectorStore.embW
        VectorStore.dbW stW "cheap shirt for workouts" (some 100)
        1.1).1 = .ok recs → recs = [])) :=
  ⟨stW_ok, C1_recommend_products_contract VectorStore.embW VectorStore.dbW
    stW "cheap shirt for workouts" (some 100) 1.1 stW_ok⟩

/-- C4: `load_index` returns absent (never raises) when the persisted
artifacts are missing or unreadable, and when no snapshot is loadable
the next `query` call transparently rebuilds from the product store —
it behaves exactly as a query against the freshly written snapshot and
returns ranked results without raising. -/
theorem C4_load_absent_and_transparent_rebuild :
    (VectorStore.load_index .absent = none ∧
      VectorStore.load_index .corrupt = none) ∧
    (∀ (emb : String → Option (List ℝ)) (db : VectorStore.DB)
        (st : VectorStore.Storage) (qt : String) (k : ℕ)
        (idx : VectorStore.Index) (ids : List Int)
        (st' : VectorStore.Storage) (q : List ℝ),
      VectorStore.load_index st = none →
      VectorStore.build_index emb db st = (.ok (idx, ids), st') →
      emb qt = some q →
      VectorStore.query emb db st qt k =
        VectorStore.query emb db st' qt k ∧
      ∃ rs, (VectorStore.query emb db st qt k).1 = .ok rs) := by
  refine ⟨⟨rfl, rfl⟩, ?_⟩
  intro emb db st qt k idx ids st' q hload hbuild hq
  have hlb : VectorStore.load_or_build emb db st = (.ok (idx, ids), st') := by
    rw [VectorStore.load_or_build, hload, hbuild]
  have hst' : st' = .snapshot ⟨idx, ids⟩ :=
    (VectorStore.build_index_ok hbuild).2.2
  have hne : ids ≠ [] := VectorStore.build_index_ok_ids_ne_nil hbuild
  have hlb' : VectorStore.load_or_build emb db st' =
      (.ok (idx, ids), st') := by
    rw [VectorStore.load_or_build, hst']
    simp only [VectorStore.load_index]
    rw [if_neg hne]
  rw [VectorStore.query_result_eq hlb hq,
    VectorStore.query_result_eq hlb' hq]
  exact ⟨rfl, _, rfl⟩

/-- C5 counterexample: with no embedding source configured but a cache
hit (under the trimmed, lower-cased key), `_get_embedding` returns the
cached vector instead of failing with the configuration error — so
"whenever no embedding source is configured, embed fails" is false as
stated. -/
theorem C5_counterexample_cache_hit_without_key :
    VectorStore.get_embedding none (fun _ => [1])
      [("cached text", [2])] " Cached TEXT " =
      .ok ([2], [("cached text", [2])], false) := rfl

/-- C5 (amended): the cache key is the trimmed and lower-cased text and
a cache hit returns the stored vector with no external call; and on a
cache miss, if no embedding source is configured the call fails with
the configuration error. -/
theorem C5_embedding_cache_contract (apiKey : Option String)
    (api : String → List ℝ) (cache : List (String × List ℝ))
    (text : String) :
    (∀ v, cache.lookup (VectorStore.cacheKey text) = some v →
      VectorStore.get_embedding apiKey api cache text =
        .ok (v, cache, false)) ∧
    (cache.lookup (VectorStore.cacheKey text) = none → apiKey = none →
      VectorStore.get_embedding apiKey api cache text =
        .error .configuration) := by
  constructor
  · intro v hv
    simp [VectorStore.get_embedding, hv]
  · intro hv hk
    subst hk
    simp [VectorStore.get_embedding, hv]

/-- Witness for C5: a concrete hit under the normalized key with no api
key configured, and a concrete miss that fails with the configuration
error. -/
theorem C5_embedding_cache_contract_witness :
    (List.lookup (VectorStore.cacheKey " Cached TEXT ")
        [("cached text", [(2 : ℝ)])] = some [2] ∧
      VectorStore.get_embedding none (fun _ => [1])
        [("cached text", [2])] " Cached TEXT " =
        .ok ([2], [("cached text", [2])], false)) ∧
    (List.lookup (VectorStore.cacheKey "x")
        ([] : List (String × List ℝ)) = none ∧
      VectorStore.get_embedding none (fun _ => [1]) [] "x" =
        .error .configuration) :=
  ⟨⟨rfl, (C5_embedding_cache_contract none (fun _ => [1])
      [("cached text", [2])] " Cached TEXT ").1 [2] rfl⟩,
    ⟨rfl, (C5_embedding_cache_contract none (fun _ => [1]) [] "x").2
      rfl rfl⟩⟩

/-- Witness for C4: with the snapshot files absent, a concrete query
rebuilds from the one-product store and succeeds. -/
theorem C4_load_absent_and_transparent_rebuild_witness :
    VectorStore.load_index .absent = none ∧
    VectorStore.build_index VectorStore.embW VectorStore.dbW .absent =
      (.ok (VectorStore.idxW, [7]), .snapshot VectorStore.snapW) ∧
    VectorStore.embW "anything" = some [1] ∧
    (VectorStore.query VectorStore.embW VectorStore.dbW .absent
        "anything" 2 =
      VectorStore.query VectorStore.embW VectorStore.dbW
        (.snapshot VectorStore.snapW) "anything" 2 ∧
    ∃ rs, (VectorStore.query VectorStore.embW VectorStore.dbW .absent
        "anything" 2).1 = .ok rs) :=
  ⟨rfl, VectorStore.buildW_eq, rfl,
    C4_load_absent_and_transparent_rebuild.2 VectorStore.embW
      VectorStore.dbW .absent "anything" 2 VectorStore.idxW [7]
      (.snapshot VectorStore.snapW) [1] rfl VectorStore.buildW_eq rfl⟩
